import Mathlib

/-!
Verification of the RAG core in `utils/rag_system.py`: the chunker
`_chunk_text`, the ingestion step `_process_document`, `remove_document`,
retrieval, the query pipeline and persistence, shallowly embedded below.
Text is `List Char`; Python slice/index semantics (negative indices, clamping)
are modelled explicitly over `Int`.
-/

/-- Python slice endpoint: a negative index has the length added, then the
result is clamped into `[0, len]`. -/
def pyClamp (n : Nat) (i : Int) : Nat :=
  if i < 0 then (i + n).toNat else min i.toNat n

/-- Python string slice `s[a:b]` (step 1). -/
def pySlice (s : List Char) (a b : Int) : List Char :=
  (s.take (pyClamp s.length b)).drop (pyClamp s.length a)

/-- Python `s.rfind(c)` for a one-character needle: the highest index at which
`c` occurs in `s`, or `-1` when it does not occur. -/
def rfind (s : List Char) (c : Char) : Int :=
  match s with
  | [] => -1
  | a :: rest =>
    let r := rfind rest c
    if r ≥ 0 then r + 1 else if a = c then 0 else -1

/-- Python `s.strip()`: whitespace removed from both ends. -/
def pyStrip (s : List Char) : List Char :=
  ((s.dropWhile Char.isWhitespace).reverse.dropWhile Char.isWhitespace).reverse

/-- One iteration of the `while` loop of `_chunk_text` (rag_system.py lines
99-117), at offset `start`: computes the window `text[start:start+size]`,
applies the sentence-boundary truncation when `end < len(text)` and
`max(chunk.rfind('.'), chunk.rfind('\n')) > start + size // 2`, and returns
the next start offset `end - overlap` together with the stripped chunk that
is appended. -/
def chunkStep (text : List Char) (size overlap start : Int) : Int × List Char :=
  let n : Int := text.length
  let e := start + size
  let chunk := pySlice text start e
  let p :=
    if e < n then
      let boundary := max (rfind chunk '.') (rfind chunk '\n')
      if boundary > start + Int.fdiv size 2 then
        (pySlice text start (start + boundary + 1), start + boundary + 1)
      else (chunk, e)
    else (chunk, e)
  (p.2 - overlap, pyStrip p.1)

/-- The `while start < len(text)` loop of `_chunk_text`, fuelled: `none` means
the fuel ran out before the loop exited (so the Python loop runs at least
`fuel` iterations from this state). -/
def chunkLoop (text : List Char) (size overlap : Int) :
    Nat → Int → List (List Char) → Option (List (List Char))
  | 0, start, chunks =>
    if start < (text.length : Int) then none else some chunks
  | fuel + 1, start, chunks =>
    if start < (text.length : Int) then
      let p := chunkStep text size overlap start
      let chunks' := chunks ++ [p.2]
      if p.1 ≥ (text.length : Int) then some chunks'
      else chunkLoop text size overlap fuel p.1 chunks'
    else some chunks

/-- `_chunk_text(text, chunk_size, overlap)` (rag_system.py lines 91-119):
empty text yields `[]`; otherwise the loop runs (with fuel `len(text) + 1`,
which suffices for every terminating configuration used by the system) and
the empty chunks are filtered out at the end. `none` = the loop did not
finish within the fuel. -/
def _chunk_text (text : List Char) (size overlap : Int) : Option (List (List Char)) :=
  if text = [] then some []
  else (chunkLoop text size overlap (text.length + 1) 0 []).map
    (List.filter (fun c => !c.isEmpty))

/-- `_chunk_text` terminates on `text` (some amount of fuel lets the loop
exit). -/
def chunkTerminates (text : List Char) (size overlap : Int) : Prop :=
  ∃ fuel, (chunkLoop text size overlap fuel 0 []).isSome = true

/-! ### Data model: document and chunk records, system state -/

/-- The value held in a record's `upload_date` field: a datetime object in
memory, or the string `json.dump(..., default=str)` turns it into. -/
inductive TimeVal where
  | dtime (t : Nat)
  | tstr (s : String)
deriving DecidableEq

/-- A document record as built by `_process_document` (rag_system.py lines
142-148) and stored in `self.documents`. -/
structure DocRec where
  id : Int
  filename : String
  file_path : String
  upload_date : TimeVal
  chunk_count : Nat
deriving DecidableEq

/-- A chunk record as built by `_process_document` (rag_system.py lines
160-166) and stored in `self.document_chunks`. -/
structure ChunkRec where
  doc_id : Int
  chunk_id : Nat
  text : List Char
  filename : String
  chunk_index : Nat
deriving DecidableEq

instance : Inhabited ChunkRec := ⟨⟨0, 0, [], "", 0⟩⟩

/-- The in-memory state of a `RAGSystem`: `self.documents`,
`self.document_chunks` and the contents of the faiss index `self.vector_store`
(`IndexFlatIP.add` appends, so the index is the list of stored vectors in
insertion order). `V` is the vector type produced by the embedding model. -/
structure RAGState (V : Type) where
  documents : List DocRec
  document_chunks : List ChunkRec
  index : List V
deriving DecidableEq

/-- The state `__init__` builds when no saved artifacts exist. -/
def emptyState (V : Type) : RAGState V := ⟨[], [], []⟩

/-- Python `list.pop(i)`: valid for `-len ≤ i < len` (negative counts from the
end); outside that range `IndexError` is raised, modelled as `none`. -/
def pyPop {α : Type} (l : List α) (i : Int) : Option (α × List α) :=
  let n : Int := l.length
  if -n ≤ i ∧ i < n then
    let j := (if i < 0 then i + n else i).toNat
    (l.get? j).map (fun a => (a, l.eraseIdx j))
  else none

/-- Python `l[i]`: valid for `-len ≤ i < len` (negative counts from the end),
`IndexError` otherwise. -/
def pyIndex {α : Type} (l : List α) (i : Int) : Option α :=
  let n : Int := l.length
  if -n ≤ i ∧ i < n then l.get? (if i < 0 then i + n else i).toNat else none

/-! ### Ingestion and removal

The embedding model is a function `emb : List Char → V`: deterministic for
identical input text (spec section 4.3). A transient failure of one batched
`encode` call (the call raising) is the `embFails` flag carried by the
operation that makes the call.
-/

/-- `_process_document` (rag_system.py lines 121-202), from the point where
the text has been extracted: empty text fails; the text is chunked with the
default `chunk_size=1000, overlap=200`; zero chunks fails; chunk records are
built, the batched embedding call runs (if it raises, the exception is caught
by the surrounding `try` and nothing has been mutated yet), the vectors are
appended to the index, and the document record (with `chunk_count` set) and
chunk records are appended. The Firestore mirror is fire-and-forget and not
modelled. Returns the new state and the boolean result. -/
def _process_document {V : Type} (emb : List Char → V) (s : RAGState V)
    (filename file_path : String) (text : List Char) (now : Nat)
    (embFails : Bool) : RAGState V × Bool :=
  if text = [] then (s, false)
  else
    let doc_id : Int := s.documents.length
    let chunks := (_chunk_text text 1000 200).getD []
    if chunks = [] then (s, false)
    else
      let chunk_records := chunks.enum.map (fun p =>
        { doc_id := doc_id
          chunk_id := s.document_chunks.length + p.1
          text := p.2
          filename := filename
          chunk_index := p.1 : ChunkRec })
      if embFails then (s, false)
      else
        let embeddings := chunk_records.map (fun c => emb c.text)
        let doc_record : DocRec :=
          { id := doc_id, filename := filename, file_path := file_path
            upload_date := TimeVal.dtime now, chunk_count := chunks.length }
        ({ documents := s.documents ++ [doc_record]
           document_chunks := s.document_chunks ++ chunk_records
           index := s.index ++ embeddings }, true)

/-- `remove_document` (rag_system.py lines 338-372): `doc_id ≥ len(documents)`
returns `False` untouched; otherwise `documents.pop(doc_id)` runs (an
`IndexError` for `doc_id < -len` is caught by the surrounding `try`, leaving
the state unchanged), the chunks with matching `doc_id` are filtered out, and
the index is rebuilt by re-embedding every remaining chunk. If that
re-embedding call raises, the exception is caught and `False` returned — but
the document and chunk lists have already been mutated and the index still
holds the old vectors. -/
def remove_document {V : Type} (emb : List Char → V) (s : RAGState V)
    (doc_id : Int) (embFails : Bool) : RAGState V × Bool :=
  if doc_id ≥ (s.documents.length : Int) then (s, false)
  else
    match pyPop s.documents doc_id with
    | none => (s, false)
    | some (_, docs') =>
      let chunks' := s.document_chunks.filter (fun c => c.doc_id != doc_id)
      if chunks'.isEmpty then (⟨docs', chunks', []⟩, true)
      else if embFails then (⟨docs', chunks', s.index⟩, false)
      else (⟨docs', chunks', chunks'.map (fun c => emb c.text)⟩, true)

/-- A mutating operation against the shared state: an ingest (with the text
already extracted, the timestamp `datetime.now()` returns, and whether the
embedding call raises during it) or a removal. -/
inductive RAGOp where
  | ingest (filename file_path : String) (text : List Char) (now : Nat) (embFails : Bool)
  | remove (doc_id : Int) (embFails : Bool)

/-- One operation applied to a state. -/
def RAGStep {V : Type} (emb : List Char → V) (s : RAGState V) :
    RAGOp → RAGState V × Bool
  | .ingest fn fp text now ef => _process_document emb s fn fp text now ef
  | .remove d ef => remove_document emb s d ef

/-- A sequence of operations run in order; the boolean is `true` iff every
operation in the sequence reported success. -/
def runTrace {V : Type} (emb : List Char → V) (s : RAGState V) :
    List RAGOp → RAGState V × Bool
  | [] => (s, true)
  | op :: rest =>
    let p := RAGStep emb s op
    let q := runTrace emb p.1 rest
    (q.1, p.2 && q.2)

/-! ### Retrieval, query pipeline, persistence -/

/-- The `for i, (score, idx) in enumerate(zip(scores[0], indices[0]))` loop of
`_retrieve_relevant_chunks` (rag_system.py lines 237-241) over the search
results the vector index returned: a result position is accepted whenever
`idx < len(document_chunks)` (no lower bound); `document_chunks[idx]` raising
`IndexError` aborts the whole retrieval (`none`, caught by the surrounding
`try`). Scores are the index's similarity scores. -/
def retrieveAux (chunks : List ChunkRec) :
    List (Int × Int) → Option (List (ChunkRec × Int))
  | [] => some []
  | (score, idx) :: rest =>
    if idx < (chunks.length : Int) then
      match pyIndex chunks idx with
      | none => none
      | some c => (retrieveAux chunks rest).map (fun l => (c, score) :: l)
    else retrieveAux chunks rest

/-- `_retrieve_relevant_chunks` (rag_system.py lines 223-247) given the
`(score, position)` rows the vector index's `search` returned: an empty chunk
list short-circuits to `[]` before any external call; any exception inside the
loop is caught and `[]` returned. -/
def _retrieve_relevant_chunks {V : Type} (s : RAGState V)
    (results : List (Int × Int)) : List (ChunkRec × Int) :=
  if s.document_chunks.isEmpty then []
  else (retrieveAux s.document_chunks results).getD []

/-- `query` (rag_system.py lines 285-307): blank questions get the fixed
prompt-for-input response; an empty retrieval gets the fixed "no relevant
information" response; otherwise `_generate_response` invokes the generative
model (`gen`, mapping the retrieved context chunks to the model's answer).
The boolean records whether the generative model was invoked. -/
def query {V : Type} (s : RAGState V) (gen : List (ChunkRec × Int) → String)
    (q : List Char) (results : List (Int × Int)) : String × Bool :=
  if pyStrip q = [] then ("Please provide a valid question.", false)
  else
    let relevant := _retrieve_relevant_chunks s results
    if relevant.isEmpty then
      ("I don\x27t have any relevant information to answer your question. Please make sure notes have been uploaded and try rephrasing your question.", false)
    else (gen relevant, true)

/-- The two artifacts `_save_vector_store` writes (rag_system.py lines 56-67):
`vector_index.faiss` (the index's vectors) and `documents.json`
(`{"documents": [...], "chunks": [...]}`). -/
structure DiskState (V : Type) where
  index_file : List V
  documents_json : List DocRec
  chunks_json : List ChunkRec
deriving DecidableEq

/-- What `json.dump(..., default=str)` does to an `upload_date` value: a
datetime object is not JSON-serialisable, so `default=str` replaces it by its
string form; a string stays a string. -/
def jsonDefaultStr : TimeVal → TimeVal
  | .dtime n => .tstr (toString n)
  | .tstr s => .tstr s

/-- A document record as it appears in `documents.json` after
`json.dump(..., default=str)`. -/
def docToJson (d : DocRec) : DocRec :=
  { d with upload_date := jsonDefaultStr d.upload_date }

/-- `_save_vector_store` (rag_system.py lines 56-67), on its success path:
writes the index vectors and the document/chunk lists (documents passing
through `default=str`); chunk record fields are all JSON-native and are
written as they are. -/
def _save_vector_store {V : Type} (s : RAGState V) : DiskState V :=
  ⟨s.index, s.documents.map docToJson, s.document_chunks⟩

/-- `_load_or_create_vector_store` (rag_system.py lines 32-54): when both
artifacts exist and load cleanly, the index and the two lists are restored
from them; otherwise a fresh empty index and empty lists are created. -/
def _load_or_create_vector_store {V : Type} : Option (DiskState V) → RAGState V
  | some d => ⟨d.documents_json, d.chunks_json, d.index_file⟩
  | none => ⟨[], [], []⟩

/-- A state reached by two successful ingests, used to exhibit the partial
update a failing re-embedding leaves behind in `remove_document`. -/
def sC2 : RAGState (List Char) :=
  (runTrace (fun t => t) (emptyState (List Char))
    [RAGOp.ingest "a.txt" "uploads/a.txt" "Alpha notes.".toList 0 false,
     RAGOp.ingest "b.txt" "uploads/b.txt" "Beta notes.".toList 1 false]).1

/-- A state holding one ingested document, for the C9 counterexample. -/
def sC9 : RAGState (List Char) :=
  (runTrace (fun t => t) (emptyState (List Char))
    [RAGOp.ingest "a.txt" "uploads/a.txt" "Alpha notes.".toList 0 false]).1

/-- Invariant I2 of the spec: every document record's `chunk_count` equals the
number of chunk records whose `doc_id` equals that document's id. -/
def chunkCountsMatch {V : Type} (s : RAGState V) : Prop :=
  ∀ doc ∈ s.documents,
    doc.chunk_count
      = (s.document_chunks.filter (fun c => c.doc_id == doc.id)).length

instance chunkCountsMatch.dec {V : Type} (s : RAGState V) :
    Decidable (chunkCountsMatch s) := by
  unfold chunkCountsMatch; infer_instance

/-- In a state built by ingests alone each document's id is its position, and
every chunk's `doc_id` is a valid nonnegative document position. -/
def idsPositional {V : Type} (s : RAGState V) : Prop :=
  (∀ (i : Nat) (doc : DocRec), s.documents.get? i = some doc → doc.id = i) ∧
  (∀ c ∈ s.document_chunks, 0 ≤ c.doc_id ∧ c.doc_id < (s.documents.length : Int))

/-- Whether an operation is an ingest. -/
def RAGOp.isIngest : RAGOp → Bool
  | .ingest _ _ _ _ _ => true
  | .remove _ _ => false

/-- The trace that breaks invariant I2: two ingests, a removal (which frees
id 0 and leaves the remaining document holding id 1), then a third ingest
that is assigned the reused id 1. -/
def opsC3 : List RAGOp :=
  [RAGOp.ingest "a.txt" "uploads/a.txt" "Alpha notes.".toList 0 false,
   RAGOp.ingest "b.txt" "uploads/b.txt" "Beta notes.".toList 1 false,
   RAGOp.remove 0 false,
   RAGOp.ingest "c.txt" "uploads/c.txt" "Gamma notes.".toList 2 false]

/-- An all-ingest trace for the C3 witness. -/
def opsC3w : List RAGOp :=
  [RAGOp.ingest "a.txt" "uploads/a.txt" "Alpha notes.".toList 0 false,
   RAGOp.ingest "b.txt" "uploads/b.txt" "Beta notes.".toList 1 false]

/-- The text on which `_chunk_text(text, 10, 9)` loops forever: the first
window is truncated at the period (end 7), the next start is `7 - 9 = -2`,
the two negative offsets produce empty windows, and the start offset returns
to 0 — a cycle. -/
def textC4 : List Char := "abcdef.xyzklmnopqrstuvwx".toList

instance : Inhabited DocRec := ⟨⟨0, "", "", TimeVal.dtime 0, 0⟩⟩

/-- A concrete two-chunk state for the C10 witness. -/
def sC10 : RAGState (List Char) :=
  ⟨[⟨0, "a.txt", "uploads/a.txt", TimeVal.dtime 0, 2⟩],
   [⟨0, 0, "alpha".toList, "a.txt", 0⟩, ⟨0, 1, "beta".toList, "a.txt", 1⟩],
   ["alpha".toList, "beta".toList]⟩

/-- A concrete trace for the C1 witness: two ingests followed by a removal,
all successful. -/
def opsC1 : List RAGOp :=
  [RAGOp.ingest "a.txt" "uploads/a.txt" "Alpha notes.".toList 0 false,
   RAGOp.ingest "b.txt" "uploads/b.txt" "Beta notes.".toList 1 false,
   RAGOp.remove 0 false]

/-- Claim C5: in the window starting at offset 8 of this text (size 10,
overlap 2) the last sentence terminator sits at window-relative offset 7,
past the midpoint `10 // 2 = 5`, yet the emitted chunk is the full
untruncated window `"ijklmno.qr"`: the code compares the window-relative
boundary against the absolute `start + size // 2`, so the truncation is not
applied uniformly to every window. -/
theorem C5_boundary_rule_not_uniform :
    rfind (pySlice "abcdefghijklmno.qrstuvwxyz0123".toList 8 18) '.' = 7 ∧
    ((7 : Int) > Int.fdiv 10 2) ∧
    _chunk_text "abcdefghijklmno.qrstuvwxyz0123".toList 10 2 =
      some ["abcdefghij".toList, "ijklmno.qr".toList,
            "qrstuvwxyz".toList, "yz0123".toList] := by
  decide

/-- Claim C7 counterexample: a reachable state (one successful ingest at
timestamp 0) whose save/load round trip does not reproduce an identical
document list: `default=str` turns the `upload_date` datetime into a string. -/
theorem C7_roundtrip_cex :
    (runTrace (fun t => t) (emptyState (List Char))
      [RAGOp.ingest "notes.txt" "uploads/notes.txt" "The sky is blue.".toList 0 false]).2
      = true ∧
    (_load_or_create_vector_store (some (_save_vector_store
      (runTrace (fun t => t) (emptyState (List Char))
        [RAGOp.ingest "notes.txt" "uploads/notes.txt" "The sky is blue.".toList 0 false]).1))).documents
      ≠ ((runTrace (fun t => t) (emptyState (List Char))
          [RAGOp.ingest "notes.txt" "uploads/notes.txt" "The sky is blue.".toList 0 false]).1).documents := by
  decide

/-- Claim C7 (amended): for every state, save followed by load on a fresh
instance reproduces the chunk list exactly, the index size (indeed the whole
vector list) exactly, and the document list exactly except that each
`upload_date` datetime has been replaced by its string form by
`json.dump(..., default=str)`. -/
theorem C7_roundtrip_amended (V : Type) (s : RAGState V) :
    (_load_or_create_vector_store (some (_save_vector_store s))).document_chunks
      = s.document_chunks ∧
    (_load_or_create_vector_store (some (_save_vector_store s))).index.length
      = s.index.length ∧
    (_load_or_create_vector_store (some (_save_vector_store s))).documents
      = s.documents.map docToJson :=
  ⟨rfl, rfl, rfl⟩

/-- Claim C8: a query whose text is non-blank after stripping, against a state
with zero chunk records, returns the fixed "no relevant information" response
and does not invoke the generative model. -/
theorem C8_empty_index_query (V : Type) (s : RAGState V)
    (gen : List (ChunkRec × Int) → String) (q : List Char)
    (results : List (Int × Int))
    (hchunks : s.document_chunks = []) (hq : pyStrip q ≠ []) :
    query s gen q results =
      ("I don\x27t have any relevant information to answer your question. Please make sure notes have been uploaded and try rephrasing your question.",
       false) := by
  simp [query, _retrieve_relevant_chunks, hchunks, hq]

/-- Claim C8 witness: the empty state with a concrete non-blank question. -/
theorem C8_empty_index_query_witness :
    query (emptyState (List Char)) (fun _ => "model answer")
      "What is in my notes?".toList [] =
      ("I don\x27t have any relevant information to answer your question. Please make sure notes have been uploaded and try rephrasing your question.",
       false) :=
  C8_empty_index_query (List Char) (emptyState (List Char))
    (fun _ => "model answer") "What is in my notes?".toList [] rfl (by decide)

/-- Positional alignment is preserved by every successful operation: the index
is exactly the embedding of the chunk list, position by position. -/
theorem RAGStep_aligned {V : Type} (emb : List Char → V) (s : RAGState V)
    (op : RAGOp)
    (hs : s.index = s.document_chunks.map (fun c => emb c.text))
    (hok : (RAGStep emb s op).2 = true) :
    (RAGStep emb s op).1.index =
      (RAGStep emb s op).1.document_chunks.map (fun c => emb c.text) := by
  cases op with
  | ingest fn fp text now ef =>
    by_cases ht : text = []
    · simp [RAGStep, _process_document, ht] at hok
    · by_cases hc : (_chunk_text text 1000 200).getD [] = []
      · simp [RAGStep, _process_document, ht, hc] at hok
      · cases ef with
        | true => simp [RAGStep, _process_document, ht, hc] at hok
        | false =>
          simp [RAGStep, _process_document, ht, hc, hs]
  | remove d ef =>
    by_cases hd : d ≥ (s.documents.length : Int)
    · simp [RAGStep, remove_document, hd] at hok
    · cases hp : pyPop s.documents d with
      | none => simp [RAGStep, remove_document, hd, hp] at hok
      | some pr =>
        by_cases he : (s.document_chunks.filter (fun c => c.doc_id != d)).isEmpty
        · have : s.document_chunks.filter (fun c => c.doc_id != d) = [] :=
            List.isEmpty_iff.mp he
          simp [RAGStep, remove_document, hd, hp, he, this]
        · cases ef with
          | true => simp [RAGStep, remove_document, hd, hp, he] at hok
          | false => simp [RAGStep, remove_document, hd, hp, he]

/-- Alignment holds at the end of any all-successful trace, from any aligned
start state. -/
theorem runTrace_aligned {V : Type} (emb : List Char → V) :
    ∀ (ops : List RAGOp) (s : RAGState V),
    s.index = s.document_chunks.map (fun c => emb c.text) →
    (runTrace emb s ops).2 = true →
    (runTrace emb s ops).1.index =
      (runTrace emb s ops).1.document_chunks.map (fun c => emb c.text)
  | [], _, hs, _ => hs
  | op :: rest, s, hs, hok => by
    simp only [runTrace, Bool.and_eq_true] at hok ⊢
    exact runTrace_aligned emb rest _ (RAGStep_aligned emb s op hs hok.1) hok.2

/-- Claim C1: after any all-successful sequence of ingest and remove
operations from the empty system, the number of chunk records equals the
number of vectors in the index, and the vector at each position is the
embedding of the text of the chunk at the same position. -/
theorem C1_positional_alignment (V : Type) (emb : List Char → V)
    (ops : List RAGOp)
    (hok : (runTrace emb (emptyState V) ops).2 = true) :
    (runTrace emb (emptyState V) ops).1.index.length
      = (runTrace emb (emptyState V) ops).1.document_chunks.length ∧
    (runTrace emb (emptyState V) ops).1.index
      = (runTrace emb (emptyState V) ops).1.document_chunks.map
          (fun c => emb c.text) := by
  have h := runTrace_aligned emb ops (emptyState V) rfl hok
  exact ⟨by rw [h, List.length_map], h⟩

/-- Claim C1 witness: the alignment invariant evaluated on a concrete
successful trace (ingest, ingest, remove). -/
theorem C1_positional_alignment_witness :
    (runTrace (fun t => t) (emptyState (List Char)) opsC1).2 = true ∧
    ((runTrace (fun t => t) (emptyState (List Char)) opsC1).1.index.length
       = (runTrace (fun t => t) (emptyState (List Char)) opsC1).1.document_chunks.length ∧
     (runTrace (fun t => t) (emptyState (List Char)) opsC1).1.index
       = (runTrace (fun t => t) (emptyState (List Char)) opsC1).1.document_chunks.map
           (fun c => c.text)) :=
  ⟨by decide, C1_positional_alignment (List Char) (fun t => t) opsC1 (by decide)⟩

/-- `list.pop(i)` succeeds exactly on `-len ≤ i < len`, removing the element
at the (normalised) position. -/
theorem pyPop_eq_some {α : Type} (l : List α) (i : Int)
    (h1 : -(l.length : Int) ≤ i) (h2 : i < (l.length : Int)) :
    ∃ a, pyPop l i =
      some (a, l.eraseIdx (if i < 0 then i + l.length else i).toNat) := by
  have hj : (if i < 0 then i + (l.length : Int) else i).toNat < l.length := by
    split <;> omega
  have ha : l.get? (if i < 0 then i + (l.length : Int) else i).toNat
      = some (l.get ⟨_, hj⟩) := List.get?_eq_some.mpr ⟨hj, rfl⟩
  exact ⟨l.get ⟨_, hj⟩, by simp [pyPop, h1, h2, ha]⟩

/-- Claim C2 counterexample: at a state holding two ingested documents, a
`remove_document(0)` call whose re-embedding raises returns `False`, yet the
document list and the chunk list have been mutated while the vector index
still holds the old vectors — the state is not left exactly as it was. -/
theorem C2_atomicity_cex :
    (remove_document (fun t => t) sC2 0 true).2 = false ∧
    (remove_document (fun t => t) sC2 0 true).1.documents ≠ sC2.documents ∧
    (remove_document (fun t => t) sC2 0 true).1.document_chunks
      ≠ sC2.document_chunks ∧
    (remove_document (fun t => t) sC2 0 true).1.index = sC2.index := by
  decide

/-- Claim C2 (amended): if the embedding call raises during an ingest, the
ingest returns `False` with the state untouched (the call happens before any
mutation). If it raises during a remove with a passing id whose surviving
chunk list is non-empty, the remove returns `False` but the document has
already been popped and its chunks filtered out, while the index still holds
the old vectors — a partial update. -/
theorem C2_embedding_failure_amended (V : Type) (emb : List Char → V)
    (s : RAGState V) :
    (∀ fn fp text now, _process_document emb s fn fp text now true = (s, false)) ∧
    (∀ d : Int, -(s.documents.length : Int) ≤ d → d < (s.documents.length : Int) →
      (s.document_chunks.filter (fun c => c.doc_id != d)).isEmpty = false →
      (remove_document emb s d true).2 = false ∧
      (remove_document emb s d true).1.documents
        = s.documents.eraseIdx (if d < 0 then d + s.documents.length else d).toNat ∧
      (remove_document emb s d true).1.document_chunks
        = s.document_chunks.filter (fun c => c.doc_id != d) ∧
      (remove_document emb s d true).1.index = s.index) := by
  constructor
  · intro fn fp text now
    by_cases ht : text = []
    · simp [_process_document, ht]
    · by_cases hc : (_chunk_text text 1000 200).getD [] = []
      · simp [_process_document, ht, hc]
      · simp [_process_document, ht, hc]
  · intro d h1 h2 hne
    obtain ⟨a, ha⟩ := pyPop_eq_some s.documents d h1 h2
    have hd : ¬ d ≥ (s.documents.length : Int) := by omega
    refine ⟨?_, ?_, ?_, ?_⟩ <;> simp [remove_document, hd, ha, hne]

/-- Claim C2 witness: the amended statement applied at the concrete two-ingest
state, removing document 0 with a failing re-embedding. -/
theorem C2_embedding_failure_amended_witness :
    (-(sC2.documents.length : Int) ≤ 0 ∧ (0 : Int) < (sC2.documents.length : Int) ∧
     (sC2.document_chunks.filter (fun c => c.doc_id != 0)).isEmpty = false) ∧
    ((remove_document (fun t => t) sC2 0 true).2 = false ∧
     (remove_document (fun t => t) sC2 0 true).1.documents
       = sC2.documents.eraseIdx (if (0 : Int) < 0 then (0 : Int) + sC2.documents.length else 0).toNat ∧
     (remove_document (fun t => t) sC2 0 true).1.document_chunks
       = sC2.document_chunks.filter (fun c => c.doc_id != 0) ∧
     (remove_document (fun t => t) sC2 0 true).1.index = sC2.index) :=
  ⟨⟨by decide, by decide, by decide⟩,
   (C2_embedding_failure_amended (List Char) (fun t => t) sC2).2 0
     (by decide) (by decide) (by decide)⟩

/-- Claim C9 counterexample: with one document present, `remove_document(-2)`
passes the `doc_id >= len(documents)` check but `pop` raises `IndexError`
(−2 is below −len), so the call returns `False`, not `True` as the claim
states for every negative id. -/
theorem C9_negative_doc_id_cex :
    sC9.documents ≠ [] ∧ ((-2 : Int) < 0) ∧
    (remove_document (fun t => t) sC9 (-2) false).2 = false ∧
    (remove_document (fun t => t) sC9 (-2) false).1 = sC9 := by
  decide

/-- Claim C9 (amended): `remove_document` validates only the upper bound, so a
negative `doc_id` passes the check. For `-len(documents) ≤ doc_id < 0` (and a
non-raising re-embedding) the call pops the document at position
`len + doc_id` — counted from the end, so `-1` removes the most recently
ingested document — filters chunks against the raw negative key (matching no
chunk ever assigned), and returns `True`. For `doc_id < -len(documents)`,
`pop` raises `IndexError`, the exception is caught, and the call returns
`False` with the state unchanged. -/
theorem C9_negative_doc_id_amended (V : Type) (emb : List Char → V)
    (s : RAGState V) :
    (∀ d : Int, d < 0 → -(s.documents.length : Int) ≤ d →
      (remove_document emb s d false).2 = true ∧
      (remove_document emb s d false).1.documents
        = s.documents.eraseIdx (d + s.documents.length).toNat ∧
      (remove_document emb s d false).1.document_chunks
        = s.document_chunks.filter (fun c => c.doc_id != d)) ∧
    (∀ d : Int, d < -(s.documents.length : Int) →
      remove_document emb s d false = (s, false)) := by
  constructor
  · intro d hneg hge
    have h2 : d < (s.documents.length : Int) := by omega
    have hd : ¬ d ≥ (s.documents.length : Int) := by omega
    obtain ⟨a, ha⟩ := pyPop_eq_some s.documents d hge h2
    rw [if_pos hneg] at ha
    by_cases he : (s.document_chunks.filter (fun c => c.doc_id != d)).isEmpty
    · refine ⟨?_, ?_, ?_⟩ <;> simp [remove_document, hd, ha, he]
    · refine ⟨?_, ?_, ?_⟩ <;> simp [remove_document, hd, ha, he]
  · intro d hlt
    have hd : ¬ d ≥ (s.documents.length : Int) := by omega
    have hp : pyPop s.documents d = none := by
      have hno : ¬(-(s.documents.length : Int) ≤ d ∧ d < (s.documents.length : Int)) := by
        omega
      simp [pyPop, hno]
    simp [remove_document, hd, hp]

/-- Claim C9 witness: the amended statement at the one-document state with
`doc_id = -1`, which removes the most recently ingested document. -/
theorem C9_negative_doc_id_amended_witness :
    ((-1 : Int) < 0 ∧ -(sC9.documents.length : Int) ≤ -1) ∧
    ((remove_document (fun t => t) sC9 (-1) false).2 = true ∧
     (remove_document (fun t => t) sC9 (-1) false).1.documents
       = sC9.documents.eraseIdx ((-1 : Int) + sC9.documents.length).toNat ∧
     (remove_document (fun t => t) sC9 (-1) false).1.document_chunks
       = sC9.document_chunks.filter (fun c => c.doc_id != -1)) :=
  ⟨⟨by decide, by decide⟩,
   (C9_negative_doc_id_amended (List Char) (fun t => t) sC9).1 (-1)
     (by decide) (by decide)⟩

/-- Appending one fresh document (id = current length, `chunk_count` = its
record count) together with its chunk records preserves both invariants. -/
theorem append_fresh_doc_inv {V : Type} (s : RAGState V) (doc : DocRec)
    (recs : List ChunkRec) (ix : List V)
    (hid : doc.id = (s.documents.length : Int))
    (hcount : doc.chunk_count = recs.length)
    (hrecs : ∀ c ∈ recs, c.doc_id = (s.documents.length : Int))
    (h : idsPositional s ∧ chunkCountsMatch s) :
    idsPositional ⟨s.documents ++ [doc], s.document_chunks ++ recs, ix⟩ ∧
    chunkCountsMatch ⟨s.documents ++ [doc], s.document_chunks ++ recs, ix⟩ := by
  obtain ⟨⟨hpos, hbound⟩, hcnt⟩ := h
  have hmem_lt : ∀ d ∈ s.documents, ∃ i : Nat,
      d.id = i ∧ i < s.documents.length := by
    intro d hd
    obtain ⟨i, hi⟩ := List.mem_iff_get?.mp hd
    obtain ⟨hlen, _⟩ := List.get?_eq_some.mp hi
    exact ⟨i, hpos i d hi, hlen⟩
  refine ⟨⟨?_, ?_⟩, ?_⟩
  · intro i doc' hi
    by_cases hlt : i < s.documents.length
    · rw [List.get?_append hlt] at hi
      exact hpos i doc' hi
    · rw [List.get?_append_right (Nat.le_of_not_lt hlt)] at hi
      have hz : i - s.documents.length = 0 := by
        obtain ⟨hlen, _⟩ := List.get?_eq_some.mp hi
        simp at hlen
        omega
      rw [hz] at hi
      simp at hi
      subst hi
      rw [hid]
      omega
  · intro c hc
    rw [List.mem_append] at hc
    rcases hc with hc | hc
    · have := hbound c hc
      simp only [List.length_append, List.length_singleton]
      push_cast
      omega
    · have := hrecs c hc
      simp only [List.length_append, List.length_singleton]
      push_cast
      omega
  · intro doc' hd'
    rw [List.mem_append] at hd'
    rcases hd' with hd' | hd'
    · obtain ⟨i, hi, hlt⟩ := hmem_lt doc' hd'
      have hfr : recs.filter (fun c => c.doc_id == doc'.id) = [] := by
        refine List.filter_eq_nil_iff.mpr ?_
        intro c hc
        have := hrecs c hc
        simp only [this, hi, beq_iff_eq]
        omega
      simp only [List.filter_append, hfr, List.append_nil]
      exact hcnt doc' hd'
    · simp only [List.mem_singleton] at hd'
      subst hd'
      have hfo : s.document_chunks.filter (fun c => c.doc_id == doc'.id) = [] := by
        refine List.filter_eq_nil_iff.mpr ?_
        intro c hc
        have := hbound c hc
        simp only [hid, beq_iff_eq]
        omega
      have hfr : recs.filter (fun c => c.doc_id == doc'.id) = recs := by
        refine List.filter_eq_self.mpr ?_
        intro c hc
        simp only [hrecs c hc, hid, beq_iff_eq]
      simp only [List.filter_append, hfo, hfr, List.nil_append]
      exact hcount

/-- An ingest (successful or not) preserves both invariants. -/
theorem ingest_preserves_inv {V : Type} (emb : List Char → V) (s : RAGState V)
    (fn fp : String) (text : List Char) (now : Nat) (ef : Bool)
    (h : idsPositional s ∧ chunkCountsMatch s) :
    idsPositional (_process_document emb s fn fp text now ef).1 ∧
    chunkCountsMatch (_process_document emb s fn fp text now ef).1 := by
  by_cases ht : text = []
  · simpa [_process_document, ht] using h
  · by_cases hc : (_chunk_text text 1000 200).getD [] = []
    · simpa [_process_document, ht, hc] using h
    · cases ef with
      | true => simpa [_process_document, ht, hc] using h
      | false =>
        simp only [_process_document, if_neg ht, if_neg hc, Bool.false_eq_true,
          if_false]
        exact append_fresh_doc_inv s _ _ _ rfl (by simp)
          (fun c hcm => by
            obtain ⟨p, _, hp⟩ := List.mem_map.mp hcm
            rw [← hp]) h

/-- What a successful `pop` implies: the index was in range and the remaining
list is `eraseIdx` at the normalised position. -/
theorem pyPop_some_shape {α : Type} (l : List α) (i : Int) (p : α × List α)
    (h : pyPop l i = some p) :
    -(l.length : Int) ≤ i ∧ i < (l.length : Int) ∧
    p.2 = l.eraseIdx (if i < 0 then i + l.length else i).toNat := by
  by_cases hb : -(l.length : Int) ≤ i ∧ i < (l.length : Int)
  · refine ⟨hb.1, hb.2, ?_⟩
    have h' : (l.get? (if i < 0 then i + (l.length : Int) else i).toNat).map
        (fun a => (a, l.eraseIdx (if i < 0 then i + (l.length : Int) else i).toNat))
        = some p := by
      simpa [pyPop, hb.1, hb.2] using h
    obtain ⟨a, _, hp⟩ := Option.map_eq_some'.mp h'
    rw [← hp]
  · simp [pyPop, hb] at h

/-- Any single removal (successful or not, failing embedding or not) from a
state whose ids are positional keeps invariant I2. -/
theorem remove_keeps_chunkCounts {V : Type} (emb : List Char → V)
    (s : RAGState V) (d : Int) (ef : Bool)
    (h : idsPositional s ∧ chunkCountsMatch s) :
    chunkCountsMatch (remove_document emb s d ef).1 := by
  obtain ⟨⟨hpos, _⟩, hcnt⟩ := h
  by_cases hd : d ≥ (s.documents.length : Int)
  · simpa [remove_document, hd] using hcnt
  · cases hp : pyPop s.documents d with
    | none => simpa [remove_document, hd, hp] using hcnt
    | some p =>
      obtain ⟨hb1, hb2, hp2⟩ := pyPop_some_shape s.documents d p hp
      have key : ∀ ix : List V,
          chunkCountsMatch (⟨p.2,
            s.document_chunks.filter (fun c => c.doc_id != d), ix⟩ : RAGState V) := by
        intro ix doc hdoc
        rw [hp2] at hdoc
        obtain ⟨j, hjk, hj⟩ := List.mem_eraseIdx_iff_getElem?.mp hdoc
        have hmem : doc ∈ s.documents := by
          exact List.mem_iff_getElem?.mpr ⟨j, hj⟩
        have hjid : doc.id = (j : Int) := hpos j doc (by simpa using hj)
        have hne : doc.id ≠ d := by
          by_cases hdn : d < 0
          · omega
          · rw [if_neg hdn] at hjk
            omega
        have hff : (s.document_chunks.filter (fun c => c.doc_id != d)).filter
              (fun c => c.doc_id == doc.id)
            = s.document_chunks.filter (fun c => c.doc_id == doc.id) := by
          rw [List.filter_filter]
          refine List.filter_congr ?_
          intro c _
          by_cases hcd : c.doc_id = doc.id
          · simp [hcd, hne]
          · simp [hcd]
        show doc.chunk_count = _
        rw [hff]
        exact hcnt doc hmem
      by_cases he : (s.document_chunks.filter (fun c => c.doc_id != d)).isEmpty
      · simpa [remove_document, hd, hp, he] using key []
      · cases ef with
        | true => simpa [remove_document, hd, hp, he] using key s.index
        | false =>
          simpa [remove_document, hd, hp, he] using
            key ((s.document_chunks.filter (fun c => c.doc_id != d)).map
              (fun c => emb c.text))

/-- Both invariants hold after any all-ingest trace from an invariant state. -/
theorem runTrace_ingest_inv {V : Type} (emb : List Char → V) :
    ∀ (ops : List RAGOp) (s : RAGState V),
    (∀ op ∈ ops, op.isIngest = true) →
    idsPositional s ∧ chunkCountsMatch s →
    idsPositional (runTrace emb s ops).1 ∧ chunkCountsMatch (runTrace emb s ops).1
  | [], _, _, h => h
  | op :: rest, s, hall, h => by
    have h1 := hall op (List.mem_cons_self op rest)
    cases op with
    | ingest fn fp text now ef =>
      simp only [runTrace, RAGStep]
      exact runTrace_ingest_inv emb rest _
        (fun o ho => hall o (List.mem_cons_of_mem _ ho))
        (ingest_preserves_inv emb s fn fp text now ef h)
    | remove d ef => simp [RAGOp.isIngest] at h1

/-- Claim C3 (amended): invariant I2 (`chunk_count` = number of chunk records
with that document's id) holds at every state reached from the empty system by
a sequence of ingests, and it still holds after one subsequent
`remove_document` call (any id, even one whose re-embedding fails). It can be
broken once an ingest follows a removal, because document ids are reused. -/
theorem C3_chunk_count_amended (V : Type) (emb : List Char → V)
    (ops : List RAGOp) (hall : ∀ op ∈ ops, op.isIngest = true) :
    chunkCountsMatch (runTrace emb (emptyState V) ops).1 ∧
    ∀ (d : Int) (ef : Bool),
      chunkCountsMatch
        (remove_document emb (runTrace emb (emptyState V) ops).1 d ef).1 := by
  have hinv := runTrace_ingest_inv emb ops (emptyState V) hall
    ⟨⟨fun i doc hi => by simp [emptyState] at hi,
      fun c hc => by simp [emptyState] at hc⟩,
     fun doc hd => by simp [emptyState] at hd⟩
  exact ⟨hinv.2, fun d ef => remove_keeps_chunkCounts emb _ d ef hinv⟩

/-- Claim C3 counterexample: after the all-successful trace ingest A, ingest
B, remove 0, ingest C, the document ingested second holds `chunk_count = 1`
but two chunk records carry its id (C was assigned the reused id 1), so
invariant I2 fails at a state reached through remove and ingest operations. -/
theorem C3_chunk_count_cex :
    (runTrace (fun t => t) (emptyState (List Char)) opsC3).2 = true ∧
    ¬ chunkCountsMatch (runTrace (fun t => t) (emptyState (List Char)) opsC3).1 := by
  exact ⟨by decide, by decide⟩

/-- Claim C3 witness: the amended statement at a concrete two-ingest trace,
with the trailing removal instantiated at id 0. -/
theorem C3_chunk_count_amended_witness :
    chunkCountsMatch (runTrace (fun t => t) (emptyState (List Char)) opsC3w).1 ∧
    chunkCountsMatch (remove_document (fun t => t)
      (runTrace (fun t => t) (emptyState (List Char)) opsC3w).1 0 false).1 :=
  ⟨(C3_chunk_count_amended (List Char) (fun t => t) opsC3w (by decide)).1,
   (C3_chunk_count_amended (List Char) (fun t => t) opsC3w (by decide)).2 0 false⟩

/-- One unfolding of the chunk loop when the window loop continues. -/
theorem chunkLoop_succ_unfold (text : List Char) (size overlap : Int)
    (fuel : Nat) (start : Int) (acc : List (List Char))
    (h1 : start < (text.length : Int))
    (h2 : ¬ (chunkStep text size overlap start).1 ≥ (text.length : Int)) :
    chunkLoop text size overlap (fuel + 1) start acc
      = chunkLoop text size overlap fuel (chunkStep text size overlap start).1
          (acc ++ [(chunkStep text size overlap start).2]) := by
  simp only [chunkLoop]
  rw [if_pos h1, if_neg h2]

/-- From any of the three offsets of the cycle, the loop never exits. -/
theorem chunkLoop_textC4_none :
    ∀ (fuel : Nat) (start : Int) (acc : List (List Char)),
      (start = 0 ∨ start = -2 ∨ start = -1) →
      chunkLoop textC4 10 9 fuel start acc = none := by
  intro fuel
  induction fuel with
  | zero =>
    intro start acc hs
    rcases hs with rfl | rfl | rfl <;>
      · simp only [chunkLoop]
        rw [if_pos (by decide)]
  | succ n ih =>
    intro start acc hs
    rcases hs with rfl | rfl | rfl
    · rw [chunkLoop_succ_unfold textC4 10 9 n 0 acc (by decide) (by decide),
        (by decide : (chunkStep textC4 10 9 0).1 = -2)]
      exact ih (-2) _ (Or.inr (Or.inl rfl))
    · rw [chunkLoop_succ_unfold textC4 10 9 n (-2) acc (by decide) (by decide),
        (by decide : (chunkStep textC4 10 9 (-2)).1 = -1)]
      exact ih (-1) _ (Or.inr (Or.inr rfl))
    · rw [chunkLoop_succ_unfold textC4 10 9 n (-1) acc (by decide) (by decide),
        (by decide : (chunkStep textC4 10 9 (-1)).1 = 0)]
      exact ih 0 _ (Or.inl rfl)

/-- Claim C4: a configuration with `0 < overlap < size` (here size 10,
overlap 9) on which the chunk loop never terminates, however much fuel it is
given: sentence-boundary truncation makes `end - overlap` negative and the
start offset cycles through 0, -2, -1 forever. -/
theorem C4_chunker_nonterminating :
    ((0 : Int) < 9 ∧ (9 : Int) < 10) ∧
    (∀ (fuel : Nat) (acc : List (List Char)),
        chunkLoop textC4 10 9 fuel 0 acc = none) ∧
    _chunk_text textC4 10 9 = none := by
  refine ⟨by norm_num,
    fun fuel acc => chunkLoop_textC4_none fuel 0 acc (Or.inl rfl), ?_⟩
  unfold _chunk_text
  rw [if_neg (by decide), chunkLoop_textC4_none (textC4.length + 1) 0 [] (Or.inl rfl)]
  rfl

/-- A Python slice with ordered endpoints is never longer than `b - a`. -/
theorem pySlice_length_le (s : List Char) (a b : Int) (hab : a ≤ b) :
    (pySlice s a b).length ≤ (b - a).toNat := by
  unfold pySlice pyClamp
  simp only [List.length_drop, List.length_take]
  split_ifs <;> omega

/-- `rfind` returns an index strictly below the length. -/
theorem rfind_lt_length (s : List Char) (c : Char) :
    rfind s c < (s.length : Int) := by
  induction s with
  | nil => simp [rfind]
  | cons a rest ih =>
    simp only [rfind, List.length_cons]
    split_ifs <;> push_cast <;> omega

/-- With `overlap ≥ size > 0` the next start offset never exceeds the current
one: the emitted window (truncated or not) ends at most `size` past `start`,
and `overlap` is subtracted. -/
theorem chunkStep_fst_le (text : List Char) (size overlap start : Int)
    (hs : 0 < size) (ho : size ≤ overlap) :
    (chunkStep text size overlap start).1 ≤ start := by
  have hchunk : ((pySlice text start (start + size)).length : Int) ≤ size := by
    have := pySlice_length_le text start (start + size) (by omega)
    omega
  have hb1 := rfind_lt_length (pySlice text start (start + size)) '.'
  have hb2 := rfind_lt_length (pySlice text start (start + size)) '\n'
  unfold chunkStep
  dsimp only
  split_ifs <;> dsimp only <;> omega

/-- With `overlap ≥ size > 0`, once the loop is entered it never exits:
the start offset is non-increasing, so `start < len(text)` stays true and the
break `start >= len(text)` never fires. -/
theorem chunkLoop_no_exit (text : List Char) (size overlap : Int)
    (hs : 0 < size) (ho : size ≤ overlap) :
    ∀ (fuel : Nat) (start : Int) (acc : List (List Char)),
      start < (text.length : Int) →
      chunkLoop text size overlap fuel start acc = none
  | 0, start, _, h => by
    simp only [chunkLoop]
    rw [if_pos h]
  | fuel + 1, start, acc, h => by
    have hle := chunkStep_fst_le text size overlap start hs ho
    rw [chunkLoop_succ_unfold text size overlap fuel start acc h (by omega)]
    exact chunkLoop_no_exit text size overlap hs ho fuel _ _ (by omega)

/-- Claim C6 counterexample: the chunker does not reject or clamp
`overlap >= size`; on text `"ab"` with `size = overlap = 1` the chunk loop
never terminates. -/
theorem C6_no_rejection_cex : ¬ chunkTerminates "ab".toList 1 1 := by
  rintro ⟨fuel, hfuel⟩
  rw [chunkLoop_no_exit "ab".toList 1 1 (by norm_num) (by norm_num)
    fuel 0 [] (by decide)] at hfuel
  simp at hfuel

/-- Claim C6 (amended): `_chunk_text` performs no rejection or clamping of a
configuration with `overlap >= size`: for every non-empty text and every
`0 < size ≤ overlap`, the chunk loop never terminates (no amount of fuel lets
it exit), so termination relies entirely on callers passing `overlap < size`
— which the system does, only ever calling with the defaults 1000/200. -/
theorem C6_overlap_ge_size_diverges (text : List Char) (size overlap : Int)
    (htext : text ≠ []) (hs : 0 < size) (ho : size ≤ overlap) :
    (∀ (fuel : Nat) (acc : List (List Char)),
        chunkLoop text size overlap fuel 0 acc = none) ∧
    _chunk_text text size overlap = none := by
  have hlen : (0 : Int) < (text.length : Int) := by
    have := List.length_pos.mpr htext
    omega
  refine ⟨fun fuel acc => chunkLoop_no_exit text size overlap hs ho fuel 0 acc hlen, ?_⟩
  unfold _chunk_text
  rw [if_neg htext, chunkLoop_no_exit text size overlap hs ho _ 0 [] hlen]
  rfl

/-- Claim C6 witness: the amended statement at text `"ab"`,
`size = overlap = 1`, with the loop evaluated at fuel 5. -/
theorem C6_overlap_ge_size_diverges_witness :
    ("ab".toList ≠ [] ∧ (0 : Int) < 1 ∧ (1 : Int) ≤ 1) ∧
    chunkLoop "ab".toList 1 1 5 0 [] = none ∧
    _chunk_text "ab".toList 1 1 = none :=
  ⟨⟨by decide, by norm_num, by norm_num⟩,
   (C6_overlap_ge_size_diverges "ab".toList 1 1 (by decide) (by norm_num)
     (by norm_num)).1 5 [],
   (C6_overlap_ge_size_diverges "ab".toList 1 1 (by decide) (by norm_num)
     (by norm_num)).2⟩

/-- The retrieval loop distributes over concatenated search-result lists. -/
theorem retrieveAux_append (chunks : List ChunkRec) (l1 l2 : List (Int × Int))
    (r1 r2 : List (ChunkRec × Int))
    (h1 : retrieveAux chunks l1 = some r1)
    (h2 : retrieveAux chunks l2 = some r2) :
    retrieveAux chunks (l1 ++ l2) = some (r1 ++ r2) := by
  induction l1 generalizing r1 with
  | nil =>
    simp only [retrieveAux] at h1
    cases h1
    simpa using h2
  | cons hd tl ih =>
    obtain ⟨sc, idx⟩ := hd
    simp only [retrieveAux, List.cons_append] at h1 ⊢
    split_ifs at h1 ⊢ with hidx
    · cases hpi : pyIndex chunks idx with
      | none => rw [hpi] at h1; simp at h1
      | some c =>
        simp only [hpi] at h1 ⊢
        obtain ⟨r1', hr1', hr⟩ := Option.map_eq_some'.mp h1
        rw [← hr]
        simp only [Option.map_eq_some']
        exact ⟨r1' ++ r2, ih r1' hr1', by simp⟩
    · exact ih r1 h1

/-- Valid (in-range, nonnegative) result positions retrieve the chunks at
those positions. -/
theorem retrieveAux_range (chunks : List ChunkRec) (sc : Int) :
    ∀ (l : List Nat), (∀ i ∈ l, i < chunks.length) →
      retrieveAux chunks (l.map (fun (i : Nat) => (sc, (i : Int))))
        = some (l.map (fun (i : Nat) => (chunks.getD i default, sc)))
  | [], _ => rfl
  | i :: tl, hall => by
    have hi : i < chunks.length := hall i (List.mem_cons_self _ _)
    have hrest := retrieveAux_range chunks sc tl
      (fun j hj => hall j (List.mem_cons_of_mem _ hj))
    simp only [List.map_cons, retrieveAux]
    rw [if_pos (by exact_mod_cast hi)]
    have hpi : pyIndex chunks (i : Int) = some (chunks.getD i default) := by
      unfold pyIndex
      rw [if_pos ⟨by omega, by exact_mod_cast hi⟩, if_neg (by omega)]
      simp only [Int.toNat_natCast]
      rw [List.getD_eq_getElem _ _ hi, List.get?_eq_get hi]
      simp
    simp only [hpi, hrest, Option.map_some']
  termination_by l => l.length

/-- Position `-1` (the padding faiss emits when it holds fewer than `top_k`
vectors) retrieves the last chunk, every time it appears. -/
theorem retrieveAux_neg_one (chunks : List ChunkRec) (h : chunks ≠ [])
    (sc : Int) :
    ∀ m : Nat, retrieveAux chunks (List.replicate m (sc, -1))
      = some (List.replicate m (chunks.getLast h, sc))
  | 0 => rfl
  | m + 1 => by
    have hn : 0 < chunks.length := List.length_pos.mpr h
    have hpi : pyIndex chunks (-1) = some (chunks.getLast h) := by
      unfold pyIndex
      rw [if_pos ⟨by omega, by omega⟩, if_pos (by norm_num)]
      have ht : ((-1 : Int) + chunks.length).toNat = chunks.length - 1 := by
        omega
      rw [ht, List.getLast_eq_getElem, List.get?_eq_get (by omega)]
      simp
    simp only [List.replicate_succ, retrieveAux]
    rw [if_pos (by omega : (-1 : Int) < (chunks.length : Int))]
    simp only [hpi, retrieveAux_neg_one chunks h sc m, Option.map_some']

/-- Reading every position of a list through `getD` is the list itself. -/
theorem map_range_getD (chunks : List ChunkRec) (sc : Int) :
    (List.range chunks.length).map (fun (i : Nat) => (chunks.getD i default, sc))
      = chunks.map (fun c => (c, sc)) := by
  apply List.ext_get
  · simp
  · intro i h1 h2
    simp only [List.get_eq_getElem, List.getElem_map, List.getElem_range]
    rw [List.getD_eq_getElem _ _ (by simpa using h1)]

/-- Claim C10: `_retrieve_relevant_chunks` bounds a result position only from
above, so the `-1` padding returned by the vector index when it holds fewer
than `top_k = 5` vectors selects the last chunk (Python negative indexing).
For a state with `0 < n < 5` chunks, a search result of the n valid positions
padded with `-1` yields the n chunks followed by the final chunk repeated for
each missing position — 5 entries, not the n existing chunks. -/
theorem C10_padding_repeats_last_chunk (V : Type) (s : RAGState V) (sc : Int)
    (h1 : s.document_chunks ≠ []) (h2 : s.document_chunks.length < 5) :
    _retrieve_relevant_chunks s
      ((List.range s.document_chunks.length).map (fun (i : Nat) => (sc, (i : Int)))
        ++ List.replicate (5 - s.document_chunks.length) (sc, -1))
      = s.document_chunks.map (fun c => (c, sc))
        ++ List.replicate (5 - s.document_chunks.length)
            (s.document_chunks.getLast h1, sc) := by
  have hr1 := retrieveAux_range s.document_chunks sc
    (List.range s.document_chunks.length) (fun i hi => List.mem_range.mp hi)
  rw [map_range_getD] at hr1
  have hr2 := retrieveAux_neg_one s.document_chunks h1 sc
    (5 - s.document_chunks.length)
  unfold _retrieve_relevant_chunks
  rw [if_neg (by simp [h1]), retrieveAux_append _ _ _ _ _ hr1 hr2]
  rfl

/-- Claim C10 witness: with 2 chunks and search results `[0, 1, -1, -1, -1]`,
retrieval returns the two chunks followed by the last chunk three more
times. -/
theorem C10_padding_repeats_last_chunk_witness :
    (sC10.document_chunks ≠ [] ∧ sC10.document_chunks.length < 5) ∧
    _retrieve_relevant_chunks sC10
      ((List.range sC10.document_chunks.length).map (fun (i : Nat) => ((7 : Int), (i : Int)))
        ++ List.replicate (5 - sC10.document_chunks.length) (7, -1))
      = sC10.document_chunks.map (fun c => (c, 7))
        ++ List.replicate (5 - sC10.document_chunks.length)
            (sC10.document_chunks.getLast (by decide), 7) :=
  ⟨⟨by decide, by decide⟩,
   C10_padding_repeats_last_chunk (List Char) sC10 7 (by decide) (by decide)⟩
